/-
A verification development for the queue engine in `src/edubot/cogs/queue.py`.

Shallow embedding conventions:
* Participant, reviewer and channel identifiers are natural numbers.
* `getvoicechan(member)` and `readymovevoice(member)` are collaborator
  lookups; they enter the model as explicit function arguments
  (`memberVoice : Nat → Option Nat`, `ready : Nat → Bool`).
* Python dictionaries are association lists in insertion order with
  first-match lookup (`dictGet`) and replace-or-append update (`dictSet`),
  mirroring dict semantics when keys are unique.
* Messages sent to Discord are modelled as an ordered list of side-effect
  intents (`Effect`); the text content of the messages is not modelled,
  only the kind of effect and its target.
* Outcomes that the code reports through distinct messages are modelled as
  constructors of small result types.
-/
import Mathlib

/-- A side effect requested from the external (Discord) layer:
a channel reply (`ctx.send`), a direct message (`self.bot.dm`), or a
voice-channel move (`member.edit(voice_channel=...)`, where `none`
mirrors passing Python `None`). -/
inductive Effect where
  | reply : Effect
  | dm : Nat → Effect
  | move : Nat → Option Nat → Effect
deriving DecidableEq

/-- Python dict lookup `d.get(k)`: the value of the first entry whose key
matches, if any. -/
def dictGet {α : Type} (d : List (Nat × α)) (k : Nat) : Option α :=
  (d.find? (fun p => p.1 == k)).map Prod.snd

/-- Python dict update `d[k] = v`: replace the entry for `k` in place when
the key is present, otherwise append a new entry at the end (dict
insertion order). -/
def dictSet {α : Type} (d : List (Nat × α)) (k : Nat) (v : α) : List (Nat × α) :=
  match d with
  | [] => [(k, v)]
  | p :: rest => if p.1 == k then (k, v) :: rest else p :: dictSet rest k v

/-- Python dict removal `d.pop(k)` (the removal part): drop the first entry
whose key matches. -/
def dictErase {α : Type} (d : List (Nat × α)) (k : Nat) : List (Nat × α) :=
  match d with
  | [] => []
  | p :: rest => if p.1 == k then rest else p :: dictErase rest k

/-- State of a `ReviewQueue` instance: `self.qid`, `self.queue` (the waiting
list) and `self.assigned` (reviewer id ↦ (member id, qid, member's voice
channel at assignment time)). -/
structure ReviewState where
  qid : Nat × Nat
  waiting : List Nat
  assigned : List (Nat × Nat × (Nat × Nat) × Option Nat)
deriving DecidableEq

/-- Result of `Queue.add` (the `!queueme` enqueue): the member was already
queued at a 0-based position, or was appended and told the 1-based
position. -/
inductive AddResult where
  | alreadyQueued : Nat → AddResult
  | added : Nat → AddResult
deriving DecidableEq

/-- `Queue.add`: `try: pos = self.queue.index(uid) ... except ValueError:
self.queue.append(uid)`. -/
def reviewAdd (uid : Nat) (s : ReviewState) : AddResult × ReviewState :=
  if s.waiting.contains uid then
    (AddResult.alreadyQueued (s.waiting.indexOf uid), s)
  else
    (AddResult.added (s.waiting.length + 1), { s with waiting := s.waiting ++ [uid] })

/-- Result of `Queue.remove`. -/
inductive RemoveResult where
  | notInQueue : RemoveResult
  | removed : RemoveResult
deriving DecidableEq

/-- `Queue.remove`: `try: self.queue.remove(uid) except ValueError: ...`;
Python `list.remove` deletes the first occurrence. -/
def reviewRemove (uid : Nat) (s : ReviewState) : RemoveResult × ReviewState :=
  if s.waiting.contains uid then
    (RemoveResult.removed, { s with waiting := s.waiting.erase uid })
  else
    (RemoveResult.notInQueue, s)

/-- Outcome of the `while self.queue and not readymovevoice(member)` skip
loop inside `ReviewQueue.takenext`: either the restore arm fired
(`self.queue = unready; return` after the noone-ready message), or the
loop exited with a popped `member`, the remaining queue, and the
collected `unready` list. -/
inductive LoopOut where
  | noneReady : List Nat → LoopOut
  | found : Nat → List Nat → List Nat → LoopOut
deriving DecidableEq

/-- The skip loop of `ReviewQueue.takenext`, entered with the already
popped front `member`, the remaining `queue`, and the `unready`
accumulator.  The guard is `self.queue and not readymovevoice(member)`.
In the body the member id is appended to `unready`; then the source
re-checks `if self.queue:` and either pops the next member and continues,
or (restore arm) reports that noone is ready and sets
`self.queue = unready`.  Here the re-check is the `isEmpty` test on the
queue the guard just found non-empty, so the restore arm cannot fire in
this sequential model. -/
def takenextLoop (ready : Nat → Bool) : Nat → List Nat → List Nat → LoopOut
  | member, [], unready => LoopOut.found member [] unready
  | member, m :: rest, unready =>
    if ready member then
      LoopOut.found member (m :: rest) unready
    else if (m :: rest).isEmpty then
      LoopOut.noneReady (unready ++ [member])
    else
      takenextLoop ready m rest (unready ++ [member])

/-- The trailing notifications of `ReviewQueue.takenext`: if the queue is
non-empty DM position 0; if its length exceeds 1 also DM position 1; if
its length exceeds 5 also DM position 4. -/
def notifyEffects (q : List Nat) : List Effect :=
  if q.length > 0 then
    [Effect.dm (q.getD 0 0)]
      ++ (if q.length > 1 then [Effect.dm (q.getD 1 0)] else [])
      ++ (if q.length > 5 then [Effect.dm (q.getD 4 0)] else [])
  else []

/-- Outcome of `ReviewQueue.takenext`, matching its four report paths:
no voice channel selected by the caller, empty queue, the (dead)
noone-ready restore arm, and a successful assignment. -/
inductive TakeOutcome where
  | noVoice : TakeOutcome
  | emptyQueue : TakeOutcome
  | noneReady : TakeOutcome
  | assignedOut : Nat → TakeOutcome
deriving DecidableEq

/-- `ReviewQueue.takenext`: check the caller's voice channel, check
emptiness, pop the front, run the skip loop, reinsert the unready
members (append when `len(self.queue) <= len(unready)`, otherwise splice
at `min(len(self.queue) // 2, 10)`), record the assignment, move the
member, and emit the trailing notifications.  Each skipped member was
DMed during the loop, giving the `unready.map Effect.dm` prefix of the
effect list. -/
def takenext (authorId : Nat) (authorVoice : Option Nat) (ready : Nat → Bool)
    (memberVoice : Nat → Option Nat) (s : ReviewState) :
    TakeOutcome × ReviewState × List Effect :=
  match authorVoice with
  | none => (TakeOutcome.noVoice, s, [Effect.reply])
  | some cv =>
    match s.waiting with
    | [] => (TakeOutcome.emptyQueue, s, [Effect.reply])
    | first :: rest =>
      match takenextLoop ready first rest [] with
      | LoopOut.noneReady restored =>
        (TakeOutcome.noneReady, { s with waiting := restored },
          restored.map Effect.dm ++ [Effect.reply])
      | LoopOut.found member queue unready =>
        let newqueue :=
          if queue.length ≤ unready.length then
            queue ++ unready
          else
            queue.take (min (queue.length / 2) 10) ++ unready
              ++ queue.drop (min (queue.length / 2) 10)
        (TakeOutcome.assignedOut member,
         { s with waiting := newqueue,
                  assigned := dictSet s.assigned authorId (member, s.qid, memberVoice member) },
         unready.map Effect.dm ++ [Effect.move member (some cv)] ++ notifyEffects newqueue)

/-- Outcome of `ReviewQueue.putback`. -/
inductive PutbackOutcome where
  | noAssignment : PutbackOutcome
  | putBack : Nat → PutbackOutcome
deriving DecidableEq

/-- `ReviewQueue.putback`: read `self.assigned.get(author, (False, False,
False))`; on the sentinel (`if not uid:`, modelled by the missing entry
and by a zero id) report that no student is assigned; otherwise
`self.queue.insert(pos, uid)`, move the member back to the stored voice
channel when ready, and DM the note.  The entry in `self.assigned` is
never removed. -/
def putback (authorId : Nat) (pos : Nat) (ready : Nat → Bool) (s : ReviewState) :
    PutbackOutcome × ReviewState × List Effect :=
  match dictGet s.assigned authorId with
  | none => (PutbackOutcome.noAssignment, s, [Effect.reply])
  | some (uid, _qid, voicechan) =>
    if uid = 0 then
      (PutbackOutcome.noAssignment, s, [Effect.reply])
    else
      (PutbackOutcome.putBack uid,
       { s with waiting := s.waiting.take pos ++ uid :: s.waiting.drop pos },
       (if ready uid then [Effect.move uid voicechan] else []) ++ [Effect.dm uid])

/-- One queue operation of the Review variant, for stating invariants over
operation sequences. -/
inductive ROp where
  | addOp : Nat → ROp
  | removeOp : Nat → ROp
  | takeOp : Nat → Option Nat → (Nat → Bool) → (Nat → Option Nat) → ROp

/-- Apply one operation to a Review queue state. -/
def runOp (op : ROp) (s : ReviewState) : ReviewState :=
  match op with
  | ROp.addOp uid => (reviewAdd uid s).2
  | ROp.removeOp uid => (reviewRemove uid s).2
  | ROp.takeOp a cv r mv => (takenext a cv r mv s).2.1

/-- Apply a sequence of operations to a Review queue state. -/
def runOps (ops : List ROp) (s : ReviewState) : ReviewState :=
  ops.foldl (fun s op => runOp op s) s

/-- The persistence record written by `Queue.save`: `qtype`, `guildname`,
`channame` and the kind-specific `qdata` (for Review, the list of waiting
ids returned by `Queue.tofile`). -/
structure QRecord where
  qtype : String
  guildname : String
  channame : String
  qdata : List Nat
deriving DecidableEq

/-- `Queue.tofile` for the Review variant: the waiting list itself. -/
def reviewToFile (s : ReviewState) : List Nat := s.waiting

/-- The record assembled by `Queue.save` for a Review queue. -/
def reviewSave (s : ReviewState) (gname cname : String) : QRecord :=
  { qtype := "Review", guildname := gname, channame := cname, qdata := reviewToFile s }

/-- Rebuilding a Review queue as `Queue.load` does: `makequeue` creates a
fresh instance (empty waiting list, empty assignment dict) and
`Queue.fromfile` overwrites `self.queue` with the stored `qdata`. -/
def reviewFromFile (qid : Nat × Nat) (qdata : List Nat) : ReviewState :=
  { qid := qid, waiting := qdata, assigned := [] }

/-- A registered queue as the registry sees it: its kind tag and display
names (the kind-specific state is modelled separately). -/
structure QueueObj where
  qtype : String
  guildname : String
  channame : String
deriving DecidableEq

/-- Result of `Queue.makequeue`: the key already has a queue, a queue of
the matched kind was created, or the generator expression
`next(qclass for qclass in cls.__subclasses__() if qclass.qtype == qtype)`
was exhausted — in Python an uncaught `StopIteration` exception, modelled
as a distinguished outcome. -/
inductive MakeResult where
  | alreadyExists : MakeResult
  | created : String → MakeResult
  | stopIterationRaised : MakeResult
deriving DecidableEq

/-- The `qtype` tags of the subclasses of `Queue`, in definition order. -/
def queueClasses : List String := ["Review", "Question"]

/-- `Queue.makequeue`: reject a duplicate key, otherwise find the subclass
whose tag matches and register a fresh instance of it; an unmatched tag
exhausts the generator fed to `next`, raising `StopIteration`. -/
def makequeue (queues : List ((Nat × Nat) × QueueObj)) (qid : Nat × Nat)
    (qtype gname cname : String) : MakeResult × List ((Nat × Nat) × QueueObj) :=
  if queues.any (fun p => p.1 == qid) then
    (MakeResult.alreadyExists, queues)
  else
    match queueClasses.find? (fun t => t == qtype) with
    | some t => (MakeResult.created t, queues ++ [(qid, ⟨t, gname, cname⟩)])
    | none => (MakeResult.stopIterationRaised, queues)

/-- A `QuestionQueue.Question` ticket: the question text, the handle of the
rendered Discord message (`None` until rendered; handles are opaque and
modelled by naturals), and the followers with the asker first. -/
structure Question where
  qmsg : String
  disc_msg : Option Nat
  followers : List Nat
deriving DecidableEq

/-- State of a `QuestionQueue` instance: `self.queue` (the ledger, an
`OrderedDict` of index ↦ question), `self.answers` (the archive) and
`self.maxidx`. -/
structure QState where
  queue : List (Nat × Question)
  answers : List (Nat × Question)
  maxidx : Nat
deriving DecidableEq

/-- Result of `QuestionQueue.add` (the `!ask` command). -/
inductive AskResult where
  | emptyQuestion : AskResult
  | askAdded : Nat → Nat → AskResult
deriving DecidableEq

/-- `QuestionQueue.add`: reject a blank question (`if not qmsg:`);
otherwise increment `self.maxidx`, render the question message, and store
a `Question` with `followers = [askedby]` under the new index.  The
reported position is `len(self.queue)` after insertion.  The fresh
rendered-message handle is modelled by the new index. -/
def qadd (askedby : Nat) (qmsg : String) (s : QState) : AskResult × QState :=
  if qmsg = "" then
    (AskResult.emptyQuestion, s)
  else
    (AskResult.askAdded (s.maxidx + 1) (s.queue.length + 1),
     { queue := s.queue ++ [(s.maxidx + 1, ⟨qmsg, some (s.maxidx + 1), [askedby]⟩)],
       answers := s.answers,
       maxidx := s.maxidx + 1 })

/-- Result of `QuestionQueue.answer`. -/
inductive AnswerResult where
  | notFound : AnswerResult
  | answeredText : AnswerResult
  | noLocation : AnswerResult
  | answeredVoice : AnswerResult
deriving DecidableEq

/-- `QuestionQueue.answer`: report when `idx not in self.queue`; with a
non-empty answer text pop the question from the ledger, re-render it as
an answer (a fresh handle, modelled by the index) and store it in
`self.answers`, congratulating a self-answering asker; with an empty
answer require the caller to be in a voice channel, then do the same
voice-flavoured move to `self.answers`. -/
def qanswer (authorId : Nat) (authorVoice : Option Nat) (idx : Nat) (answer : String)
    (s : QState) : AnswerResult × QState × List Effect :=
  match dictGet s.queue idx with
  | none => (AnswerResult.notFound, s, [Effect.reply])
  | some qstn =>
    if answer ≠ "" then
      (AnswerResult.answeredText,
       { queue := dictErase s.queue idx,
         answers := dictSet s.answers idx { qstn with disc_msg := some idx },
         maxidx := s.maxidx },
       [Effect.reply] ++ (if qstn.followers.headD 0 == authorId then [Effect.reply] else []))
    else
      match authorVoice with
      | none => (AnswerResult.noLocation, s, [Effect.reply])
      | some _cv =>
        (AnswerResult.answeredVoice,
         { queue := dictErase s.queue idx,
           answers := dictSet s.answers idx { qstn with disc_msg := some idx },
           maxidx := s.maxidx },
         [Effect.reply])

/-- Result of `QuestionQueue.amend`. -/
inductive AmendResult where
  | notFound : AmendResult
  | amended : AmendResult
deriving DecidableEq

/-- `QuestionQueue.amend`: look the index up in `self.answers` only; on a
hit, delete the rendered answer message and re-send it with the
amendment spliced in (a fresh handle, modelled by the index), keeping
the followers list. -/
def qamend (authorId : Nat) (idx : Nat) (amendment : String) (s : QState) :
    AmendResult × QState × List Effect :=
  match dictGet s.answers idx with
  | none => (AmendResult.notFound, s, [Effect.reply])
  | some qstn =>
    (AmendResult.amended,
     { s with answers := dictSet s.answers idx { qstn with disc_msg := some idx } },
     [Effect.reply])

/-- `QuestionQueue.whereis`: scan `enumerate(self.queue.items())` and report
each question the user follows as a triple (own-question flag, question
index, 0-based position in the ledger); the flag is the source's
`qstn.followers[0] == uid` test. -/
def whereisEntries (uid : Nat) (s : QState) : List (Bool × Nat × Nat) :=
  s.queue.enum.filterMap fun pq =>
    if pq.2.2.followers.contains uid then
      some (pq.2.2.followers.headD 0 == uid, pq.2.1, pq.1)
    else none

/- ### Supporting lemmas -/

/-- The skip loop accounts for every popped id: on normal exit the
collected `unready` list, the exiting member and the remaining queue
are exactly the accumulator followed by the ids that were still queued. -/
lemma takenextLoop_acc (ready : Nat → Bool) :
    ∀ (queue : List Nat) (member : Nat) (acc : List Nat) {m : Nat} {q u : List Nat},
      takenextLoop ready member queue acc = LoopOut.found m q u →
      u ++ m :: q = acc ++ member :: queue := by
  intro queue
  induction queue with
  | nil =>
    intro member acc m q u h
    simp only [takenextLoop, LoopOut.found.injEq] at h
    obtain ⟨h1, h2, h3⟩ := h
    rw [← h1, ← h2, ← h3]
  | cons x rest ih =>
    intro member acc m q u h
    cases hr : ready member with
    | true =>
      simp only [takenextLoop, hr, if_true, LoopOut.found.injEq] at h
      obtain ⟨h1, h2, h3⟩ := h
      rw [← h1, ← h2, ← h3]
    | false =>
      simp only [takenextLoop, hr, Bool.false_eq_true, if_false, List.isEmpty_cons] at h
      have := ih x (acc ++ [member]) h
      rw [this, List.append_assoc]
      rfl

/-- The restore arm of the skip loop never fires in sequential execution:
the emptiness re-check inside the body repeats the check the loop guard
just made. -/
lemma takenextLoop_ne_noneReady (ready : Nat → Bool) :
    ∀ (queue : List Nat) (member : Nat) (acc r : List Nat),
      takenextLoop ready member queue acc ≠ LoopOut.noneReady r := by
  intro queue
  induction queue with
  | nil => intro member acc r; simp [takenextLoop]
  | cons x rest ih =>
    intro member acc r
    cases hr : ready member with
    | true => simp [takenextLoop, hr]
    | false =>
      simp only [takenextLoop, hr, Bool.false_eq_true, if_false, List.isEmpty_cons]
      exact ih x (acc ++ [member]) r

/-- Splicing `u` into the middle of `q` is a permutation of appending it. -/
lemma splice_perm {α : Type} (q u : List α) (p : Nat) :
    (q.take p ++ u ++ q.drop p).Perm (q ++ u) := by
  have h1 : q.take p ++ u ++ q.drop p = q.take p ++ (u ++ q.drop p) := by
    rw [List.append_assoc]
  have h3 : (q.take p ++ (u ++ q.drop p)).Perm (q.take p ++ (q.drop p ++ u)) :=
    List.Perm.append_left _ List.perm_append_comm
  have h4 : q.take p ++ (q.drop p ++ u) = q ++ u := by
    rw [← List.append_assoc, List.take_append_drop]
  rw [h1]
  rw [h4] at h3
  exact h3

/-- Taking `p` elements is the same as taking `min p (length)` elements. -/
lemma take_clamp {α : Type} (l : List α) (p : Nat) :
    l.take p = l.take (min p l.length) := by
  rcases Nat.le_total p l.length with h | h
  · rw [Nat.min_eq_left h]
  · rw [Nat.min_eq_right h, List.take_of_length_le h, List.take_length]

/-- Dropping `p` elements is the same as dropping `min p (length)` elements. -/
lemma drop_clamp {α : Type} (l : List α) (p : Nat) :
    l.drop p = l.drop (min p l.length) := by
  rcases Nat.le_total p l.length with h | h
  · rw [Nat.min_eq_left h]
  · rw [Nat.min_eq_right h, List.drop_of_length_le h, List.drop_length]

/-- `reviewAdd` preserves distinctness of the waiting list. -/
lemma reviewAdd_preserves_nodup (uid : Nat) (s : ReviewState) (h : s.waiting.Nodup) :
    (reviewAdd uid s).2.waiting.Nodup := by
  by_cases hm : uid ∈ s.waiting
  · simp [reviewAdd, hm, h]
  · simp [reviewAdd, hm, List.nodup_append, h]

/-- `reviewRemove` preserves distinctness of the waiting list. -/
lemma reviewRemove_preserves_nodup (uid : Nat) (s : ReviewState) (h : s.waiting.Nodup) :
    (reviewRemove uid s).2.waiting.Nodup := by
  by_cases hm : uid ∈ s.waiting
  · simpa [reviewRemove, hm] using List.Nodup.erase uid h
  · simpa [reviewRemove, hm] using h

/-- `takenext` preserves distinctness of the waiting list: the final list
is a permutation of a sublist of the original. -/
lemma takenext_preserves_nodup (a : Nat) (cv : Option Nat) (ready : Nat → Bool)
    (mv : Nat → Option Nat) (s : ReviewState) (h : s.waiting.Nodup) :
    (takenext a cv ready mv s).2.1.waiting.Nodup := by
  cases cv with
  | none => simpa [takenext] using h
  | some c =>
    obtain ⟨qid0, w, asg⟩ := s
    cases w with
    | nil => simpa [takenext] using h
    | cons first rest =>
      cases hl : takenextLoop ready first rest [] with
      | noneReady r => exact absurd hl (takenextLoop_ne_noneReady ready rest first [] r)
      | found mem q u =>
        have he : u ++ mem :: q = first :: rest := by
          simpa using takenextLoop_acc ready rest first [] hl
        have hnd : (u ++ mem :: q).Nodup := by
          rw [he]; exact h
        have hqu : (q ++ u).Nodup := by
          have hsub : (u ++ q).Sublist (u ++ mem :: q) :=
            List.Sublist.append_left (List.sublist_cons_self mem q) u
          have h1 : (u ++ q).Nodup := List.Nodup.sublist hsub hnd
          exact List.perm_append_comm.nodup h1
        simp only [takenext, hl]
        by_cases hle : q.length ≤ u.length
        · simpa [hle] using hqu
        · have hperm :
              (q.take (min (q.length / 2) 10) ++ u ++ q.drop (min (q.length / 2) 10)).Perm
                (q ++ u) :=
            splice_perm q u (min (q.length / 2) 10)
          simpa [hle] using hperm.symm.nodup hqu

/-- `dictGet` misses keys that are not in the list. -/
lemma dictGet_eq_none_of_not_mem {α : Type} (d : List (Nat × α)) (k : Nat)
    (h : k ∉ d.map Prod.fst) : dictGet d k = none := by
  induction d with
  | nil => rfl
  | cons p rest ih =>
    simp only [List.map_cons, List.mem_cons, not_or] at h
    have hbeq : (p.1 == k) = false := by
      simp [Ne.symm h.1]
    simp only [dictGet, List.find?, hbeq]
    exact ih h.2

/-- After `dictErase`, a key that appeared at most once is gone. -/
lemma dictGet_dictErase_self {α : Type} (d : List (Nat × α)) (k : Nat)
    (h : (d.map Prod.fst).Nodup) : dictGet (dictErase d k) k = none := by
  induction d with
  | nil => rfl
  | cons p rest ih =>
    simp only [List.map_cons, List.nodup_cons] at h
    by_cases hp : p.1 = k
    · have hk : k ∉ rest.map Prod.fst := hp ▸ h.1
      simp only [dictErase, hp, beq_self_eq_true, if_true]
      exact dictGet_eq_none_of_not_mem rest k hk
    · have hbeq : (p.1 == k) = false := by simp [hp]
      simp only [dictErase, hbeq, Bool.false_eq_true, if_false, dictGet, List.find?]
      exact ih h.2

/-- `dictSet` followed by `dictGet` of the same key yields the new value. -/
lemma dictGet_dictSet_self {α : Type} (d : List (Nat × α)) (k : Nat) (v : α) :
    dictGet (dictSet d k v) k = some v := by
  induction d with
  | nil => simp [dictGet, dictSet, List.find?]
  | cons p rest ih =>
    by_cases hp : p.1 = k
    · simp [dictSet, dictGet, List.find?, hp]
    · have hbeq : (p.1 == k) = false := by simp [hp]
      simp only [dictSet, hbeq, Bool.false_eq_true, if_false, dictGet, List.find?]
      exact ih

/- ### Claim theorems -/

/-- C1: the claim says that when the skip loop empties the waiting list
without finding a ready participant, the whole skipped list (final popped
participant included) is restored, the result is NoneReady and no
assignment is recorded.  The code does the opposite: with
`waiting = [1, 2]`, neither participant ready and the reviewer in voice
channel 5, `takenext` exits the loop when the list empties and assigns
the final non-ready participant 2, records the assignment for reviewer 9,
and leaves `waiting = [1]` — the restore arm of the source is unreachable
because the `if self.queue:` re-check repeats the loop guard. -/
theorem takenext_exhaustion_assigns_unready :
    takenext 9 (some 5) (fun _ => false) (fun _ => none)
        { qid := (1, 1), waiting := [1, 2], assigned := [] } =
      (TakeOutcome.assignedOut 2,
       { qid := (1, 1), waiting := [1], assigned := [(9, 2, (1, 1), none)] },
       [Effect.dm 1, Effect.move 2 (some 5), Effect.dm 1]) := by decide

/-- C5: the claim says `makequeue` always returns an error value, even for
an unrecognised kind tag.  The code instead evaluates
`next(qclass for qclass in cls.__subclasses__() if qclass.qtype == qtype)`,
which raises an uncaught `StopIteration` when no subclass tag matches:
on a fresh registry, creating a queue of kind "Stack" reaches the
raised-exception outcome and registers nothing. -/
theorem makequeue_unknown_kind_stops :
    makequeue [] (1, 2) "Stack" "guild" "chan" = (MakeResult.stopIterationRaised, []) := by
  decide

/-- C7: serialising a Review queue and rebuilding one from the record
yields an identical waiting list, for every state and in particular for
`[5, 7, 2]`. -/
theorem review_serialize_roundtrip (s : ReviewState) (g c : String) (qid2 : Nat × Nat) :
    (reviewFromFile qid2 (reviewSave s g c).qdata).waiting = s.waiting ∧
    (reviewFromFile qid2
        (reviewSave { qid := (1, 1), waiting := [5, 7, 2], assigned := [] } g c).qdata).waiting
      = [5, 7, 2] :=
  ⟨rfl, rfl⟩

/-- C9: a `takenext` call by a reviewer with no voice channel returns
immediately for every state — even an empty queue reports the missing
voice channel, not emptiness — leaving the state untouched, recording no
assignment, and emitting only the channel reply: no move and no DM. -/
theorem takenext_no_voice_immediate (a : Nat) (ready : Nat → Bool)
    (mv : Nat → Option Nat) (s : ReviewState) :
    takenext a none ready mv s = (TakeOutcome.noVoice, s, [Effect.reply]) ∧
    ∀ u c, Effect.move u c ∉ (takenext a none ready mv s).2.2 ∧
      Effect.dm u ∉ (takenext a none ready mv s).2.2 := by
  refine ⟨rfl, ?_⟩
  intro u c
  constructor <;> simp [takenext]

/-- C8 counterexample: the claim says a fresh question is reported at
position 0.  Starting from an empty Question queue, user 1 asks "a" and
then user 2 asks "b"; `whereis` for user 2 reports the own question with
index 2 at position 1, and no entry at position 0. -/
theorem whereis_after_ask_counterexample :
    whereisEntries 2
        ((qadd 2 "b" ((qadd 1 "a" { queue := [], answers := [], maxidx := 0 }).2)).2)
      = [(true, 2, 1)] ∧
    ∀ e ∈ whereisEntries 2
        ((qadd 2 "b" ((qadd 1 "a" { queue := [], answers := [], maxidx := 0 }).2)).2),
      e.2.2 ≠ 0 := by
  decide

/-- C8 (amended): after a successful `ask`, `whereis` for the asker gains
exactly one new entry, an own-question entry for the fresh index — at
position `len(ledger)` before the ask (the end of the ledger), which is
position 0 only when the ledger was empty. -/
theorem whereis_after_ask_position (s : QState) (asker : Nat) (qmsg : String)
    (h : qmsg ≠ "") :
    whereisEntries asker (qadd asker qmsg s).2 =
      whereisEntries asker s ++ [(true, s.maxidx + 1, s.queue.length)] := by
  unfold qadd
  rw [if_neg h]
  unfold whereisEntries
  simp [List.enum_append, List.filterMap_append, List.enumFrom]

/-- Witness for the amended C8 theorem at a concrete input: on the empty
queue, user 4 asking "why" is reported as the own question with index 1
at position 0. -/
theorem whereis_after_ask_position_witness :
    whereisEntries 4 (qadd 4 "why" { queue := [], answers := [], maxidx := 0 }).2 =
      [(true, 1, 0)] := by
  have h := whereis_after_ask_position { queue := [], answers := [], maxidx := 0 } 4 "why"
    (by decide)
  simpa using h

/-- C2: when `takenext` assigns a ready participant after skipping the
unready prefix (the skip loop exits with member `mem`, remaining queue
`q` of size `n` and skipped list `u` of size `m`), the new waiting list
is `q` with `u` spliced in, in original relative order, at position `n`
itself when `n ≤ m` (that is, appended at the tail) and at
`min(n / 2, 10)` otherwise; every participant in front of the splice
point keeps its position. -/
theorem takenext_fairness_reinsertion (a cv : Nat) (ready : Nat → Bool)
    (mv : Nat → Option Nat) (s : ReviewState) (first mem : Nat)
    (rest q u : List Nat)
    (hw : s.waiting = first :: rest)
    (hloop : takenextLoop ready first rest [] = LoopOut.found mem q u)
    (hready : ready mem = true) :
    (takenext a (some cv) ready mv s).1 = TakeOutcome.assignedOut mem ∧
    (takenext a (some cv) ready mv s).2.1.waiting =
      q.take (if q.length ≤ u.length then q.length else min (q.length / 2) 10) ++ u ++
        q.drop (if q.length ≤ u.length then q.length else min (q.length / 2) 10) ∧
    ∀ i, i < (if q.length ≤ u.length then q.length else min (q.length / 2) 10) →
      (takenext a (some cv) ready mv s).2.1.waiting[i]? = q[i]? := by
  obtain ⟨qid0, w, asg⟩ := s
  simp only at hw
  subst hw
  simp only [takenext, hloop]
  by_cases hle : q.length ≤ u.length
  · refine ⟨by simp, ?_, ?_⟩
    · simp [hle, List.take_length, List.drop_length]
    · intro i hi
      rw [if_pos hle] at hi
      simp only [hle, if_true]
      rw [List.getElem?_append_left]
      simpa using hi
  · have hp : min (q.length / 2) 10 ≤ q.length :=
      le_trans (Nat.min_le_left _ _) (Nat.div_le_self _ _)
    refine ⟨by simp, ?_, ?_⟩
    · simp [hle]
    · intro i hi
      rw [if_neg hle] at hi
      simp only [hle, if_false]
      have hlen : i < (q.take (min (q.length / 2) 10)).length := by
        rw [List.length_take]
        exact Nat.lt_min.mpr ⟨hi, lt_of_lt_of_le hi hp⟩
      rw [List.append_assoc, List.getElem?_append_left hlen, List.getElem?_take, if_pos hi]

/-- Witness for the C2 theorem at a concrete input: `waiting =
[1, 2, 3, 4, 5]` with only participant 2 ready.  The loop skips 1 and
takes 2, leaving `q = [3, 4, 5]` and `u = [1]`; since `n = 3 > m = 1`
the skipped id is spliced at `min(3 / 2, 10) = 1`, giving
`[3, 1, 4, 5]`. -/
theorem takenext_fairness_reinsertion_witness :
    (takenext 9 (some 5) (fun x => x == 2) (fun _ => none)
        { qid := (1, 1), waiting := [1, 2, 3, 4, 5], assigned := [] }).1 =
      TakeOutcome.assignedOut 2 ∧
    (takenext 9 (some 5) (fun x => x == 2) (fun _ => none)
        { qid := (1, 1), waiting := [1, 2, 3, 4, 5], assigned := [] }).2.1.waiting =
      [3, 1, 4, 5] := by
  have h := takenext_fairness_reinsertion 9 5 (fun x => x == 2) (fun _ => none)
    { qid := (1, 1), waiting := [1, 2, 3, 4, 5], assigned := [] }
    1 2 [2, 3, 4, 5] [3, 4, 5] [1] rfl rfl rfl
  refine ⟨h.1, ?_⟩
  rw [h.2.1]
  decide

/-- C4 counterexample: the claim says `putback` clears the assignment, so
a second `putback` with no intervening `takenext` reports NoAssignment.
In the code the `self.assigned` entry survives: with reviewer 7 assigned
student 5, two consecutive `putback` calls both report success and the
student is inserted twice, leaving `waiting = [5, 5]`. -/
theorem putback_second_counterexample :
    (putback 7 0 (fun _ => false)
        ((putback 7 0 (fun _ => false)
            { qid := (1, 1), waiting := [], assigned := [(7, 5, (1, 1), some 3)] }).2.1)).1
      ≠ PutbackOutcome.noAssignment ∧
    (putback 7 0 (fun _ => false)
        ((putback 7 0 (fun _ => false)
            { qid := (1, 1), waiting := [], assigned := [(7, 5, (1, 1), some 3)] }).2.1)).2.1.waiting
      = [5, 5] := by
  decide

/-- C4 (amended): `putback` with no recorded assignment (or the falsy
sentinel) reports NoAssignment and leaves the state unchanged; with a
live assignment it inserts the assignee at `min(pos, len(waiting))` —
but it does **not** clear the assignment: `self.assigned` is left intact,
so a second `putback` by the same reviewer succeeds again instead of
reporting NoAssignment. -/
theorem putback_no_clear_behavior (a pos : Nat) (ready : Nat → Bool) (s : ReviewState) :
    (dictGet s.assigned a = none →
      putback a pos ready s = (PutbackOutcome.noAssignment, s, [Effect.reply])) ∧
    (∀ uid qd vc, dictGet s.assigned a = some (uid, qd, vc) → uid ≠ 0 →
      (putback a pos ready s).1 = PutbackOutcome.putBack uid ∧
      (putback a pos ready s).2.1.waiting =
        s.waiting.take (min pos s.waiting.length) ++
          uid :: s.waiting.drop (min pos s.waiting.length) ∧
      (putback a pos ready s).2.1.assigned = s.assigned ∧
      (putback a pos ready s).1 ≠ PutbackOutcome.noAssignment) := by
  constructor
  · intro h
    simp [putback, h]
  · intro uid qd vc hget hne
    simp only [putback, hget, hne, if_false]
    refine ⟨by trivial, ?_, by trivial, by simp⟩
    rw [← take_clamp, ← drop_clamp]

/-- Witness for the amended C4 theorem at a concrete input: reviewer 7
has student 5 assigned; `putback 7 0` succeeds, inserts 5 at the front
of the empty waiting list, and leaves the assignment dictionary
untouched. -/
theorem putback_no_clear_behavior_witness :
    (putback 7 0 (fun _ => false)
        { qid := (1, 1), waiting := [], assigned := [(7, 5, (1, 1), some 3)] }).1 =
      PutbackOutcome.putBack 5 ∧
    (putback 7 0 (fun _ => false)
        { qid := (1, 1), waiting := [], assigned := [(7, 5, (1, 1), some 3)] }).2.1.waiting =
      [5] ∧
    (putback 7 0 (fun _ => false)
        { qid := (1, 1), waiting := [], assigned := [(7, 5, (1, 1), some 3)] }).2.1.assigned =
      [(7, 5, (1, 1), some 3)] := by
  have h := (putback_no_clear_behavior 7 0 (fun _ => false)
    { qid := (1, 1), waiting := [], assigned := [(7, 5, (1, 1), some 3)] }).2
    5 (1, 1) (some 3) rfl (by decide)
  exact ⟨h.1, by rw [h.2.1]; rfl, h.2.2.1⟩

/-- C3 counterexample: the claim extends the no-duplicates invariant to
sequences that include `putback`.  Enqueue participant 1, take them
(reviewer 9, everyone ready), then put them back twice: because
`putback` leaves `self.assigned` intact, the second call inserts the
same id again and `waiting = [1, 1]` is reached. -/
theorem waiting_duplicate_counterexample :
    ¬ ((putback 9 0 (fun _ => false)
          ((putback 9 0 (fun _ => false)
              ((takenext 9 (some 3) (fun _ => true) (fun _ => none)
                  ((reviewAdd 1
                      { qid := (1, 1), waiting := [], assigned := [] }).2)).2.1)).2.1)).2.1.waiting.Nodup) := by
  decide

/-- C3 (amended): under every sequence of enqueue (`reviewAdd`), remove
(`reviewRemove`) and `takenext` operations the waiting list keeps its ids
pairwise distinct, and enqueueing an id that is already waiting reports
its current 0-based position and leaves the state unchanged; `putback`
is excluded, since it can re-insert an id that is already waiting (see
the counterexample). -/
theorem review_waiting_nodup_invariant (ops : List ROp) (s : ReviewState)
    (h : s.waiting.Nodup) :
    (runOps ops s).waiting.Nodup ∧
    ∀ uid, uid ∈ s.waiting →
      (reviewAdd uid s).2 = s ∧
      (reviewAdd uid s).1 = AddResult.alreadyQueued (s.waiting.indexOf uid) := by
  constructor
  · induction ops generalizing s with
    | nil => exact h
    | cons op rest ih =>
      cases op with
      | addOp uid => exact ih _ (reviewAdd_preserves_nodup uid s h)
      | removeOp uid => exact ih _ (reviewRemove_preserves_nodup uid s h)
      | takeOp a cv r mv => exact ih _ (takenext_preserves_nodup a cv r mv s h)
  · intro uid hm
    constructor <;> simp [reviewAdd, hm]

/-- Witness for the amended C3 theorem at a concrete input: a sequence
that enqueues 1 and 2, removes 1, re-enqueues 1 and runs a `takenext`
keeps the waiting list duplicate-free, and re-enqueueing the waiting
participant 4 changes nothing and reports position 0. -/
theorem review_waiting_nodup_invariant_witness :
    (runOps [ROp.addOp 1, ROp.addOp 2, ROp.removeOp 1, ROp.addOp 1,
        ROp.takeOp 9 (some 3) (fun _ => true) (fun _ => none)]
      { qid := (1, 1), waiting := [4], assigned := [] }).waiting.Nodup ∧
    ∀ uid, uid ∈ ({ qid := (1, 1), waiting := [4], assigned := [] } : ReviewState).waiting →
      (reviewAdd uid { qid := (1, 1), waiting := [4], assigned := [] }).2 =
        { qid := (1, 1), waiting := [4], assigned := [] } ∧
      (reviewAdd uid { qid := (1, 1), waiting := [4], assigned := [] }).1 =
        AddResult.alreadyQueued
          (({ qid := (1, 1), waiting := [4], assigned := [] } : ReviewState).waiting.indexOf uid) :=
  review_waiting_nodup_invariant
    [ROp.addOp 1, ROp.addOp 2, ROp.removeOp 1, ROp.addOp 1,
      ROp.takeOp 9 (some 3) (fun _ => true) (fun _ => none)]
    { qid := (1, 1), waiting := [4], assigned := [] } (by decide)

/-- A successful `qanswer` (by text or by voice) pops the question from the
ledger and stores a copy of it, with a fresh rendered handle but the same
text and followers, in the archive. -/
lemma qanswer_success_shape (a : Nat) (cv : Option Nat) (idx : Nat) (ans : String)
    (s : QState) (hkeys : (s.queue.map Prod.fst).Nodup)
    (hr : (qanswer a cv idx ans s).1 = AnswerResult.answeredText ∨
          (qanswer a cv idx ans s).1 = AnswerResult.answeredVoice) :
    (qanswer a cv idx ans s).2.1.queue = dictErase s.queue idx ∧
    dictGet (qanswer a cv idx ans s).2.1.queue idx = none ∧
    ∃ q, dictGet s.queue idx = some q ∧
      (qanswer a cv idx ans s).2.1.answers =
        dictSet s.answers idx { q with disc_msg := some idx } := by
  cases hq : dictGet s.queue idx with
  | none =>
    rcases hr with h | h <;> simp [qanswer, hq] at h
  | some q =>
    by_cases hans : ans ≠ ""
    · refine ⟨?_, ?_, q, rfl, ?_⟩ <;>
        simp [qanswer, hq, hans, dictGet_dictErase_self s.queue idx hkeys]
    · cases cv with
      | none => rcases hr with h | h <;> simp [qanswer, hq, hans] at h
      | some c =>
        refine ⟨?_, ?_, q, rfl, ?_⟩ <;>
          simp [qanswer, hq, hans, dictGet_dictErase_self s.queue idx hkeys]

/-- C6: `qanswer` reports NotFound and changes nothing when the index is
not in the ledger; a successful answer (by text or by voice) removes the
index from the ledger and archives a question with the same text and
followers; and `qamend` succeeds exactly when the index is in the
archive — the ledger plays no role in it, and an archive miss leaves the
state unchanged. -/
theorem answer_archive_amend (a : Nat) (cv : Option Nat) (idx : Nat) (ans : String)
    (s : QState) (hkeys : (s.queue.map Prod.fst).Nodup) :
    (dictGet s.queue idx = none →
      qanswer a cv idx ans s = (AnswerResult.notFound, s, [Effect.reply])) ∧
    (((qanswer a cv idx ans s).1 = AnswerResult.answeredText ∨
      (qanswer a cv idx ans s).1 = AnswerResult.answeredVoice) →
      dictGet (qanswer a cv idx ans s).2.1.queue idx = none ∧
      ∃ q q2, dictGet s.queue idx = some q ∧
        dictGet (qanswer a cv idx ans s).2.1.answers idx = some q2 ∧
        q2.qmsg = q.qmsg ∧ q2.followers = q.followers) ∧
    ∀ author t, ((qamend author idx t s).1 = AmendResult.amended ↔
        (dictGet s.answers idx).isSome) ∧
      (dictGet s.answers idx = none → (qamend author idx t s).2.1 = s) := by
  refine ⟨?_, ?_, ?_⟩
  · intro h
    simp [qanswer, h]
  · intro hr
    obtain ⟨_hqueue, hnone, q, hget, hans⟩ := qanswer_success_shape a cv idx ans s hkeys hr
    refine ⟨hnone, q, { q with disc_msg := some idx }, hget, ?_, rfl, rfl⟩
    rw [hans]
    exact dictGet_dictSet_self _ _ _
  · intro author t
    cases hg : dictGet s.answers idx with
    | none => simp [qamend, hg]
    | some q => simp [qamend, hg]

/-- Witness for the C6 theorem at a concrete input: a ledger holding
question 1 ("q" asked by 4); answering it by text removes index 1 from
the ledger and archives a question with the same text and followers,
and amending succeeds exactly when the archive has the index. -/
theorem answer_archive_amend_witness :
    dictGet (qanswer 4 none 1 "yes"
        { queue := [(1, { qmsg := "q", disc_msg := some 1, followers := [4] })],
          answers := [], maxidx := 1 }).2.1.queue 1 = none ∧
    ∃ q q2,
      dictGet ({ queue := [(1, { qmsg := "q", disc_msg := some 1, followers := [4] })],
                 answers := [], maxidx := 1 } : QState).queue 1 = some q ∧
      dictGet (qanswer 4 none 1 "yes"
          { queue := [(1, { qmsg := "q", disc_msg := some 1, followers := [4] })],
            answers := [], maxidx := 1 }).2.1.answers 1 = some q2 ∧
      q2.qmsg = q.qmsg ∧ q2.followers = q.followers := by
  have h := answer_archive_amend 4 none 1 "yes"
    { queue := [(1, { qmsg := "q", disc_msg := some 1, followers := [4] })],
      answers := [], maxidx := 1 } (by decide)
  exact h.2.1 (Or.inl (by decide))

/-- C10: once an index has been successfully answered, a second `answer`
call for the same index — any caller, any voice state, any text —
reports NotFound and leaves both the ledger and the archive (the whole
state) unchanged. -/
theorem answer_twice_not_found (a a2 : Nat) (cv cv2 : Option Nat) (idx : Nat)
    (ans ans2 : String) (s : QState)
    (hkeys : (s.queue.map Prod.fst).Nodup)
    (hr : (qanswer a cv idx ans s).1 = AnswerResult.answeredText ∨
          (qanswer a cv idx ans s).1 = AnswerResult.answeredVoice) :
    (qanswer a2 cv2 idx ans2 (qanswer a cv idx ans s).2.1).1 = AnswerResult.notFound ∧
    (qanswer a2 cv2 idx ans2 (qanswer a cv idx ans s).2.1).2.1 =
      (qanswer a cv idx ans s).2.1 := by
  obtain ⟨_hqueue, hnone, _⟩ := qanswer_success_shape a cv idx ans s hkeys hr
  set s2 := (qanswer a cv idx ans s).2.1 with hs2
  constructor <;> simp [qanswer, hnone]

/-- Witness for the C10 theorem at a concrete input: after question 1 is
answered by text, answering index 1 again reports NotFound and leaves
the state as it was after the first answer. -/
theorem answer_twice_not_found_witness :
    (qanswer 9 (some 2) 1 "again"
        (qanswer 4 none 1 "yes"
          { queue := [(1, { qmsg := "q", disc_msg := some 1, followers := [4] })],
            answers := [], maxidx := 1 }).2.1).1 = AnswerResult.notFound ∧
    (qanswer 9 (some 2) 1 "again"
        (qanswer 4 none 1 "yes"
          { queue := [(1, { qmsg := "q", disc_msg := some 1, followers := [4] })],
            answers := [], maxidx := 1 }).2.1).2.1 =
      (qanswer 4 none 1 "yes"
        { queue := [(1, { qmsg := "q", disc_msg := some 1, followers := [4] })],
          answers := [], maxidx := 1 }).2.1 :=
  answer_twice_not_found 4 9 none (some 2) 1 "yes" "again"
    { queue := [(1, { qmsg := "q", disc_msg := some 1, followers := [4] })],
      answers := [], maxidx := 1 } (by decide) (Or.inl (by decide))
